import Mathlib

/-!
Verification of the BLE data-transfer protocol implementation
(`ll_sender.py`, `ll_receiver.py`, `hl_download.py`, `hl_upload.py`).

Byte buffers are modelled as `List Nat` (each entry a byte value),
Python integers as `Int` where they can go negative, and the
filesystem side effects of the high-level layer as explicit state.
The MD5 digest used by both layers is implemented directly (RFC 1321)
so that every hash comparison in the code is computed for real.
-/

/-- Rotate a 32-bit word left by `s` bits. -/
def rotl32 (x s : Nat) : Nat :=
  ((x <<< s) ||| (x >>> (32 - s))) % 4294967296

/-- The 64 MD5 sine-derived constants `K[i] = floor(|sin(i+1)| * 2^32)`. -/
def mdK : List Nat :=
  [3614090360, 3905402710, 606105819, 3250441966, 4118548399, 1200080426,
   2821735955, 4249261313, 1770035416, 2336552879, 4294925233, 2304563134,
   1804603682, 4254626195, 2792965006, 1236535329, 4129170786, 3225465664,
   643717713, 3921069994, 3593408605, 38016083, 3634488961, 3889429448,
   568446438, 3275163606, 4107603335, 1163531501, 2850285829, 4243563512,
   1735328473, 2368359562, 4294588738, 2272392833, 1839030562, 4259657740,
   2763975236, 1272893353, 4139469664, 3200236656, 681279174, 3936430074,
   3572445317, 76029189, 3654602809, 3873151461, 530742520, 3299628645,
   4096336452, 1126891415, 2878612391, 4237533241, 1700485571, 2399980690,
   4293915773, 2240044497, 1873313359, 4264355552, 2734768916, 1309151649,
   4149444226, 3174756917, 718787259, 3951481745]

/-- The MD5 per-round left-rotation amounts. -/
def mdS : List Nat :=
  [7, 12, 17, 22, 7, 12, 17, 22, 7, 12, 17, 22, 7, 12, 17, 22,
   5, 9, 14, 20, 5, 9, 14, 20, 5, 9, 14, 20, 5, 9, 14, 20,
   4, 11, 16, 23, 4, 11, 16, 23, 4, 11, 16, 23, 4, 11, 16, 23,
   6, 10, 15, 21, 6, 10, 15, 21, 6, 10, 15, 21, 6, 10, 15, 21]

/-- Group a byte list into little-endian 32-bit words (length a multiple of 4). -/
def toWordsLE : List Nat → List Nat
  | a :: b :: c :: d :: rest =>
      (a + (b <<< 8) + (c <<< 16) + (d <<< 24)) :: toWordsLE rest
  | _ => []

/-- The 8-byte little-endian encoding of `n` (the MD5 bit-length field). -/
def lenBytesLE (n : Nat) : List Nat :=
  (List.range 8).map (fun i => (n >>> (8 * i)) % 256)

/-- MD5 padding: append `0x80`, zero bytes to 56 mod 64, then the bit length. -/
def md5pad (msg : List Nat) : List Nat :=
  let z := (119 - msg.length % 64) % 64
  msg ++ [128] ++ List.replicate z 0 ++ lenBytesLE (8 * msg.length)

/-- The MD5 running state: four 32-bit words. -/
structure MDState where
  a : Nat
  b : Nat
  c : Nat
  d : Nat
deriving DecidableEq

/-- One of the 64 MD5 operations on a 16-word message block `M`. -/
def md5op (M : List Nat) (st : MDState) (i : Nat) : MDState :=
  let fg : Nat × Nat :=
    if i < 16 then ((st.b &&& st.c) ||| ((st.b ^^^ 4294967295) &&& st.d), i)
    else if i < 32 then
      ((st.d &&& st.b) ||| ((st.d ^^^ 4294967295) &&& st.c), (5 * i + 1) % 16)
    else if i < 48 then (st.b ^^^ st.c ^^^ st.d, (3 * i + 5) % 16)
    else (st.c ^^^ (st.b ||| (st.d ^^^ 4294967295)), (7 * i) % 16)
  let f := (fg.1 + st.a + mdK.getD i 0 + M.getD fg.2 0) % 4294967296
  ⟨st.d, (st.b + rotl32 f (mdS.getD i 0)) % 4294967296, st.b, st.c⟩

/-- Process one 64-byte MD5 block. -/
def md5block (st : MDState) (block : List Nat) : MDState :=
  let M := toWordsLE block
  let r := (List.range 64).foldl (md5op M) st
  ⟨(st.a + r.a) % 4294967296, (st.b + r.b) % 4294967296,
   (st.c + r.c) % 4294967296, (st.d + r.d) % 4294967296⟩

/-- Fuel-driven worker for `chunksOf` (structural recursion, so that the
kernel can evaluate it inside `decide`). -/
def chunksOfAux (size : Nat) : Nat → List Nat → List (List Nat)
  | 0, _ => []
  | fuel + 1, l =>
      if l = [] ∨ size = 0 then []
      else l.take size :: chunksOfAux size fuel (l.drop size)

/-- Split a list into consecutive pieces of `size` elements (last may be
shorter); the byte-slicing both `itertools.islice` loops in the source
perform. Junk (`[]`) at `size = 0`, where the Python code would not return. -/
def chunksOf (size : Nat) (l : List Nat) : List (List Nat) :=
  chunksOfAux size l.length l

/-- The 4-byte little-endian encoding of a 32-bit word. -/
def wordLE4 (n : Nat) : List Nat :=
  [n % 256, (n >>> 8) % 256, (n >>> 16) % 256, (n >>> 24) % 256]

/-- The MD5 digest (16 bytes) of a byte list; `hashlib.md5(x).digest()`. -/
def md5 (msg : List Nat) : List Nat :=
  let st := (chunksOf 64 (md5pad msg)).foldl md5block
    ⟨1732584193, 4023233417, 2562383102, 271733878⟩
  wordLE4 st.a ++ wordLE4 st.b ++ wordLE4 st.c ++ wordLE4 st.d

/-- The truncated per-frame hash: `hashlib.md5(x).digest()[0:2]`. -/
def md5trunc (msg : List Nat) : List Nat :=
  (md5 msg).take 2

/-- The protobuf frame `TransferData` (fields as used by the code; integer
fields are Python ints, byte fields are byte lists).  The zero-valued record
is the reserved "empty" marker `TransferData()`. -/
structure TransferData where
  current_chunk : Int := 0
  overall_chunks : Int := 0
  hash : List Nat := []
  data : List Nat := []
deriving DecidableEq

/-- The "empty" marker frame `TransferData()`. -/
def emptyTD : TransferData := {}

/-- `LLSender` state after `send`: the MTU and the not-yet-pulled frames of
the generator created by `_split` (each yield snapshot is one frame). -/
structure LLSenderState where
  mtu : Nat
  pending : List TransferData
deriving DecidableEq

/-- The frames `_split` yields for the chunk list `cs`, starting at sequence
index `i`, all carrying `overall_chunks = n`: index, truncated MD5, data. -/
def llframes (n : Int) : Nat → List (List Nat) → List TransferData
  | _, [] => []
  | i, c :: cs => ⟨(i : Int), n, md5trunc c, c⟩ :: llframes n (i + 1) cs

/-- `LLSender.send`: computes `payload_size = mtu - PAYLOAD_HEADER_SIZE` (22),
sets `overall_chunks = ceil(len(data) / payload_size)` and creates the
`_split` generator over the payload. -/
def llSend (mtu : Nat) (data : List Nat) : LLSenderState :=
  let p := mtu - 22
  let overall : Nat := (data.length + p - 1) / p
  ⟨mtu, llframes (overall : Int) 0 (chunksOf p data)⟩

/-- `LLSender.get_chunk`: next frame of the generator, or the reserved empty
marker `TransferData()` once the generator is exhausted. -/
def ll_get_chunk (s : LLSenderState) : LLSenderState × TransferData :=
  match s.pending with
  | [] => (s, emptyTD)
  | c :: rest => ({ s with pending := rest }, c)

/-- Iterate `get_chunk` (discarding outputs) `n` times. -/
def ll_get_iter : Nat → LLSenderState → LLSenderState
  | 0, s => s
  | n + 1, s => ll_get_iter n (ll_get_chunk s).1

/-- `LLReceiverError` of `ll_receiver.py`. -/
inductive LLReceiverError where
  | NONE
  | WRONG_HASH
  | WRONG_SEQUENCE
deriving DecidableEq

/-- `LLReceiver` mutable state: remaining expected chunks, assembled data,
new-data flag and last error (timestamps and the callback are not modelled;
data delivery upward is visible through `new_data` and `data`). -/
structure LLReceiverState where
  remaining : Int := 0
  data : List Nat := []
  new_data : Bool := false
  error : LLReceiverError := .NONE
deriving DecidableEq

/-- A fresh `LLReceiver()`. -/
def initLLReceiver : LLReceiverState := {}

/-- `LLReceiver._reset`: begin a new reception of `n` chunks. -/
def llreset (n : Int) : LLReceiverState :=
  { remaining := n, data := [], new_data := false, error := .NONE }

/-- The tail of `LLReceiver.new_chunk` after the sequence checks: verify the
truncated hash, then append the data, decrement the counter and flag
completed receptions. -/
def llstep (s : LLReceiverState) (c : TransferData) : LLReceiverState × Int :=
  if md5trunc c.data ≠ c.hash then ({ s with error := .WRONG_HASH }, -1)
  else
    let s1 : LLReceiverState :=
      { s with data := s.data ++ c.data, remaining := s.remaining - 1 }
    let s2 := if s1.remaining = 0 then { s1 with new_data := true } else s1
    (s2, s1.remaining)

/-- `LLReceiver.new_chunk`: a frame with `current_chunk == 0` resets the
reception; otherwise the sequence invariant
`remaining + current_chunk == overall_chunks` is checked; then the truncated
hash is verified and the data consumed. -/
def new_chunk (s : LLReceiverState) (c : TransferData) : LLReceiverState × Int :=
  if c.current_chunk = 0 then llstep (llreset c.overall_chunks) c
  else if s.remaining + c.current_chunk ≠ c.overall_chunks then
    ({ s with error := .WRONG_SEQUENCE }, -1)
  else llstep s c

/-- Feed a list of frames into the receiver, in order. -/
def feedAll (s : LLReceiverState) : List TransferData → LLReceiverState
  | [] => s
  | c :: cs => feedAll (new_chunk s c).1 cs

/-- A call `new_chunk s c` accepts the frame: its data is appended to the
assembled buffer and the remaining-frame counter is decremented. -/
def llAccepted (s : LLReceiverState) (c : TransferData) : Prop :=
  (new_chunk s c).1.data = s.data ++ c.data ∧
  (new_chunk s c).1.remaining = s.remaining - 1

/-- The round-trip outcome claimed by the spec: splitting `B` at MTU `mtu`
and feeding every produced frame, in order, into a fresh receiver yields the
buffer `B` back, with zero remaining chunks, the new-data flag set and no
error. -/
def roundTripOk (mtu : Nat) (B : List Nat) : Prop :=
  let fin := feedAll initLLReceiver (llSend mtu B).pending
  fin.data = B ∧ fin.remaining = 0 ∧ fin.new_data = true ∧ fin.error = .NONE

instance (s : LLReceiverState) (c : TransferData) : Decidable (llAccepted s c) :=
  inferInstanceAs (Decidable (_ ∧ _))

instance (mtu : Nat) (B : List Nat) : Decidable (roundTripOk mtu B) :=
  inferInstanceAs (Decidable (_ ∧ _ ∧ _ ∧ _))

/-- The post-exhaustion behaviour claimed for `LLSender`: after all frames of
the current payload are pulled, the state is drained and every further
`get_chunk` returns the reserved empty marker `TransferData()` without
changing the state (so this persists until the next `send`). -/
def eosPersists (mtu : Nat) (data : List Nat) : Prop :=
  ∀ k, ll_get_chunk (ll_get_iter k (ll_get_iter (llSend mtu data).pending.length
      (llSend mtu data))) =
    (ll_get_iter (llSend mtu data).pending.length (llSend mtu data), emptyTD)

/-- Modelled from the spec: the destination-consumer tag (`Target`) of the
generated message schema, which is not under `src/`; only `Target.UNKNOWN`
is named by the code, plus one representative real consumer tag. -/
inductive Target where
  | UNKNOWN
  | APP
deriving DecidableEq

/-- Modelled from the spec: the `StartTransferResponseStatus` enum of the
generated message schema (absent from `src/`).  The spec names
`InProgress | Finished | Error | FileNotFound`; `UNKNOWN` is the zero
default a fresh protobuf message carries. -/
inductive TStatus where
  | UNKNOWN
  | TRANSFER
  | FINISHED
  | ERROR
  | FILE_NOT_FOUND
deriving DecidableEq

/-- Modelled from the spec: `StartTransferRequest` — filename, declared
super-chunk total, whole-file hash, destination tag (fields as the code
reads them; generated schema absent from `src/`). -/
structure DLRequest where
  filename : String := ""
  chunks : Int := 0
  hash : List Nat := []
  target : Target := .UNKNOWN
deriving DecidableEq

/-- Modelled from the spec: `StartTransferResponse` — the progress snapshot
(fields as the code writes them; the elapsed-time field is real-time
dependent and not modelled). -/
structure TResponse where
  filename : String := ""
  chunks : Int := 0
  next_chunk : Int := 0
  hash : List Nat := []
  size : Int := 0
  status : TStatus := .UNKNOWN
deriving DecidableEq

/-- Look a chunk file up on the modelled disk (association list from the
artifact index in `chunk{i}.bin` to the file's bytes). -/
def diskLookup : List (Nat × List Nat) → Nat → Option (List Nat)
  | [], _ => none
  | (k, v) :: rest, i => if i = k then some v else diskLookup rest i

/-- Write (create or overwrite) the chunk file with index `k`. -/
def diskWrite (d : List (Nat × List Nat)) (k : Nat) (v : List Nat) :
    List (Nat × List Nat) :=
  match diskLookup d k with
  | some _ => d.map (fun p => if p.1 = k then (k, v) else p)
  | none => d ++ [(k, v)]

/-- Read and concatenate the chunk files `0 .. n-1`, as the
`for i in range(chunks)` loop of `_transfer_finished` does; `none` when a
file is missing (where Python raises `FileNotFoundError`). -/
def readConcat (d : List (Nat × List Nat)) : Nat → Option (List Nat)
  | 0 => some []
  | n + 1 =>
      match readConcat d n, diskLookup d n with
      | some acc, some c => some (acc ++ c)
      | _, _ => none

/-- `HLDownload` state: the tracked request and response, the chunk
artifacts on disk, the resume-marker file's presence, the final output file
(if written) and the completion-callback invocations (path-or-none and
target). -/
structure DLState where
  request : DLRequest
  response : TResponse
  disk : List (Nat × List Nat)
  marker : Bool
  finalFile : Option (String × List Nat)
  events : List (Option String × Target)
deriving DecidableEq

/-- `HLDownload._reset`: take over the request and build the fresh response
(expected chunk total and filename copied, status `TRANSFER`). -/
def dl_reset (s : DLState) (req : DLRequest) : DLState :=
  { s with
    request := req,
    response := { filename := req.filename, chunks := req.chunks,
                  next_chunk := 0, hash := [], size := 0, status := .TRANSFER } }

/-- `HLDownload.set_request`: a request with a different hash, or arriving
while no transfer is in progress, resets the session, persists the resume
marker and deletes stale artifacts; otherwise it has no effect. -/
def dl_set_request (s : DLState) (req : DLRequest) : DLState :=
  if s.request.hash ≠ req.hash ∨ s.response.status ≠ .TRANSFER then
    { dl_reset s req with marker := true, disk := [] }
  else s

/-- A fresh `HLDownload` session (no resume marker on disk) accepting its
first request. -/
def initDL (req : DLRequest) : DLState :=
  dl_set_request
    { request := {}, response := {}, disk := [], marker := false,
      finalFile := none, events := [] } req

/-- `HLDownload._transfer_finished`: concatenate artifacts `0..chunks-1`,
write the final file, compare the whole-file MD5 with the request's hash to
pick `FINISHED`/`ERROR`, unlink the resume marker (Python raises if it is
already absent), and invoke the completion callback with the final path and
target on success, or a null path and `Target.UNKNOWN` on failure. -/
def dl_transfer_finished (s : DLState) : Option DLState :=
  match readConcat s.disk s.response.chunks.toNat with
  | none => none
  | some content =>
      let s1 := { s with finalFile := some (s.request.filename, content) }
      let s2 :=
        if md5 content = s.request.hash then
          { s1 with response := { s1.response with status := .FINISHED } }
        else
          { s1 with response := { s1.response with status := .ERROR } }
      if s2.marker = false then none
      else
        let s3 := { s2 with marker := false }
        if s3.response.status = .FINISHED then
          some { s3 with
            events := s3.events ++ [(some s.request.filename, s.request.target)] }
        else
          some { s3 with events := s3.events ++ [(none, Target.UNKNOWN)] }

/-- `HLDownload.add_chunk` (the LL receiver's completion callback): store
the chunk's full MD5 in the response, write artifact `chunk{next}.bin`,
advance `next_chunk`, finalize when `next_chunk == chunks`, then account the
chunk's size. -/
def dl_add_chunk (s : DLState) (chunk : List Nat) : Option DLState :=
  let r1 := { s.response with hash := md5 chunk }
  let d1 := diskWrite s.disk r1.next_chunk.toNat chunk
  let r2 := { r1 with next_chunk := r1.next_chunk + 1 }
  let s1 := { s with response := r2, disk := d1 }
  match (if r2.next_chunk = r2.chunks then dl_transfer_finished s1 else some s1) with
  | none => none
  | some s2 =>
      some { s2 with
        response := { s2.response with size := s2.response.size + chunk.length } }

/-- Feed a list of completed super-chunks into the download session. -/
def dl_feed (s : DLState) : List (List Nat) → Option DLState
  | [] => some s
  | c :: cs =>
      match dl_add_chunk s c with
      | none => none
      | some s1 => dl_feed s1 cs

/-- `HLDownload.get_response`: return the response snapshot, but force
status `ERROR` when the declared chunk total is zero or the next-chunk
index exceeds the declared total. -/
def dl_get_response (r : TResponse) : TResponse :=
  if r.chunks = 0 then { r with status := .ERROR }
  else if r.next_chunk > r.chunks then { r with status := .ERROR }
  else r

/-- `HLDownload._resume_download` (marker present and deserializable, with
artifact files `d` on disk): rebuild the response from the marker request,
count the artifact files as `next_chunk`, and reconstruct `size` as
(size of `chunk0.bin`) × count; `none` when `chunk0.bin` is missing though
the count is positive (Python raises on the `stat` call). -/
def dl_resume (req : DLRequest) (d : List (Nat × List Nat)) : Option TResponse :=
  let k := d.length
  let base : TResponse :=
    { filename := req.filename, chunks := req.chunks, next_chunk := (k : Int),
      hash := [], size := 0, status := .TRANSFER }
  if k = 0 then some base
  else
    match diskLookup d 0 with
    | none => none
    | some c0 => some { base with size := ((c0.length * k : Nat) : Int) }

/-- The artifact files `chunk{i}.bin ↦ cs[i - start]` for indices counting
up from `start`. -/
def pairsFrom : Nat → List (List Nat) → List (Nat × List Nat)
  | _, [] => []
  | i, c :: cs => (i, c) :: pairsFrom (i + 1) cs

/-- Total byte count of a list of chunks. -/
def sumLens (cs : List (List Nat)) : Nat :=
  cs.foldr (fun c a => c.length + a) 0

/-- Nat ceiling division `(a + b - 1) / b`; the exact value of
`math.ceil(a / b)` for positive `b`. -/
def ceilDiv (a b : Nat) : Nat :=
  (a + b - 1) / b

/-- Fuel-driven worker for `uploadChunks` (structural recursion for kernel
evaluation). -/
def uploadChunksAux (C : Nat) : Nat → List Nat → List (List Nat)
  | 0, _ => []
  | fuel + 1, l =>
      l.take C :: (if C ≤ l.length then uploadChunksAux C fuel (l.drop C) else [])

/-- The sequence of reads `HLUpload._split` yields: read `C` bytes and yield
them, stopping only after a read SHORTER than `C` — so a file whose size is
a multiple of `C` (the empty file included) yields a final empty read.
Junk (`[]`) at `C = 0`, where the Python generator would loop forever. -/
def uploadChunks (C : Nat) (l : List Nat) : List (List Nat) :=
  if C = 0 then [] else uploadChunksAux C (l.length + 1) l

/-- `HLUpload` state: the current response, the remaining yields of the
`_split` generator (`[]` both before any transfer and after exhaustion —
the distinction is immaterial because `get_response` only touches the
generator while status is `TRANSFER`), the configured super-chunk size, the
upload root's file contents, and the super-chunks handed to the LL
sender. -/
structure ULState where
  response : TResponse
  gen : List (List Nat)
  chunkSize : Nat
  files : String → Option (List Nat)
  sent : List (List Nat)

/-- `HLUpload._reset`: fresh response with the requested filename; if the
file is absent from the upload root, status `FILE_NOT_FOUND` and stop
(chunk total stays 0, generator untouched); otherwise declare
`ceil(size / chunk_size)` chunks, set status `TRANSFER` and open the read
generator. -/
def ul_reset (s : ULState) (req : DLRequest) : ULState :=
  let r0 : TResponse := { filename := req.filename }
  match s.files req.filename with
  | none => { s with response := { r0 with status := .FILE_NOT_FOUND } }
  | some content =>
      { s with
        response := { r0 with
          chunks := ((ceilDiv content.length s.chunkSize : Nat) : Int),
          status := .TRANSFER },
        gen := uploadChunks s.chunkSize content }

/-- `HLUpload.set_request`: an empty hash begins a new upload via `_reset`;
a non-empty hash acknowledges the previous super-chunk and advances
`next_chunk` (an out-of-range advance is only logged). -/
def ul_set_request (s : ULState) (req : DLRequest) : ULState :=
  if req.hash = [] then ul_reset s req
  else { s with response :=
    { s.response with next_chunk := s.response.next_chunk + 1 } }

/-- `HLUpload.get_response`: while status is `TRANSFER`, pull the next read
from the generator — on a yield, record its truncated MD5 and size and hand
the bytes to the LL sender; on exhaustion flip to `FINISHED` and clear the
hash.  In any other status the call just returns the snapshot. -/
def ul_get_response (s : ULState) : ULState × TResponse :=
  if s.response.status = .TRANSFER then
    match s.gen with
    | c :: rest =>
        let r := { s.response with
          hash := (md5 c).take 2, size := s.response.size + (c.length : Int) }
        ({ s with response := r, gen := rest, sent := s.sent ++ [c] }, r)
    | [] =>
        let r := { s.response with status := .FINISHED, hash := [] }
        ({ s with response := r }, r)
  else (s, s.response)

/-- Iterate `ul_get_response` (discarding outputs) `n` times. -/
def ul_get_iter : Nat → ULState → ULState
  | 0, s => s
  | n + 1, s => ul_get_iter n (ul_get_response s).1

/-- The finalization outcome: `add_chunk` succeeds; the status becomes
`FINISHED` or `ERROR` by comparing the concatenated artifacts' MD5 with the
request's hash; the resume marker is deleted; the concatenated result is
written to the final filename; the completion callback fires with the
path and target on success or a null path and `Target.UNKNOWN` on failure;
and the artifact files on disk are exactly those before the call plus the
newly written one — NONE are deleted, in either outcome. -/
def finalizeOutcome (s : DLState) (chunk content : List Nat) : Prop :=
  ∃ s', dl_add_chunk s chunk = some s' ∧
    s'.response.status =
      (if md5 content = s.request.hash then TStatus.FINISHED else TStatus.ERROR) ∧
    s'.marker = false ∧
    s'.finalFile = some (s.request.filename, content) ∧
    s'.events = s.events ++
      [if md5 content = s.request.hash then (some s.request.filename, s.request.target)
       else (none, Target.UNKNOWN)] ∧
    s'.disk = diskWrite s.disk s.response.next_chunk.toNat chunk

/-- What the startup-resume logic restores, compared with the pre-restart
response: `next_chunk` equals the number `k` of received super-chunks,
`size` equals (size of artifact 0) × k, and the resumed response agrees
with the pre-restart one on filename, declared chunk total, status,
next-chunk index and (for uniform chunk sizes) transferred bytes. -/
def resumeMatch (req : DLRequest) (cs : List (List Nat)) : Prop :=
  ∃ s' r, dl_feed (initDL req) cs = some s' ∧
    dl_resume req s'.disk = some r ∧
    r.next_chunk = ((cs.length : Nat) : Int) ∧
    r.size = (((cs.headD []).length * cs.length : Nat) : Int) ∧
    r.filename = s'.response.filename ∧
    r.chunks = s'.response.chunks ∧
    r.status = s'.response.status ∧
    r.next_chunk = s'.response.next_chunk ∧
    r.size = s'.response.size

/-- Concrete download session for C2: one declared chunk, request hash equal
to `md5([])` (the digest of the empty concatenation), marker on disk,
transfer in progress. -/
def exC2state : DLState :=
  { request := { filename := "f", chunks := 1,
                 hash := [212, 29, 140, 217, 143, 0, 178, 4, 233, 128, 9, 152,
                          236, 248, 66, 126],
                 target := .APP },
    response := { filename := "f", chunks := 1, next_chunk := 0, hash := [],
                  size := 0, status := .TRANSFER },
    disk := [], marker := true, finalFile := none, events := [] }

/-- The state after the C2 counterexample run, written out literally. -/
def exC2final : DLState :=
  { request := exC2state.request,
    response := { filename := "f", chunks := 1, next_chunk := 1,
                  hash := [212, 29, 140, 217, 143, 0, 178, 4, 233, 128, 9, 152,
                           236, 248, 66, 126],
                  size := 0, status := .FINISHED },
    disk := [(0, [])], marker := false, finalFile := some ("f", []),
    events := [(some "f", Target.APP)] }

/-- Concrete download request for the C3 counterexample. -/
def exC3req : DLRequest :=
  { filename := "f", chunks := 2, hash := [1], target := .APP }

/-- The session state after 1 of 2 super-chunks (the byte `[0]`) arrived;
its response carries `hash = md5([0])`. -/
def exC3pre : DLState :=
  { request := exC3req,
    response := { filename := "f", chunks := 2, next_chunk := 1,
                  hash := [147, 184, 133, 173, 254, 13, 160, 137, 205, 246,
                           52, 144, 79, 213, 159, 113],
                  size := 1, status := .TRANSFER },
    disk := [(0, [0])], marker := true, finalFile := none, events := [] }

/-- The response the resume logic reconstructs from the same disk state:
its `hash` field is empty. -/
def exC3resumed : TResponse :=
  { filename := "f", chunks := 2, next_chunk := 1, hash := [], size := 1,
    status := .TRANSFER }

/-- Concrete upload session for C4: one file "f" of 1 byte, chunk size 1. -/
def exC4state : ULState :=
  { response := {}, gen := [], chunkSize := 1,
    files := fun n => if n = "f" then some [7] else none, sent := [] }

/-- Concrete initial request for C4 (empty hash begins the upload). -/
def exC4req : DLRequest :=
  { filename := "f" }

/-- Concrete acknowledgement request for C4 (echoes the truncated hash of
the first super-chunk, `md5([7])[0:2] = [137, 231]`). -/
def exC4ack : DLRequest :=
  { filename := "f", hash := [137, 231] }

/-- Concrete upload session for the C8 witness: empty root. -/
def exC8state : ULState :=
  { response := {}, gen := [], chunkSize := 4, files := fun _ => none, sent := [] }

/-- Concrete request for the C8 witness. -/
def exC8req : DLRequest :=
  { filename := "missing.bin" }

/-- RFC 1321 test vector: the MD5 of the empty message. -/
theorem md5_nil :
    md5 [] = [212, 29, 140, 217, 143, 0, 178, 4, 233, 128, 9, 152, 236, 248, 66, 126] := by
  decide

/-- RFC 1321 test vector: the MD5 of "abc". -/
theorem md5_abc :
    md5 [97, 98, 99] = [144, 1, 80, 152, 60, 210, 79, 176, 214, 150, 63, 125, 40, 225, 127, 114] := by
  decide

set_option maxRecDepth 2000 in
/-- Test vector for the two-block path: the MD5 of the 64 bytes 0..63
(whose padding spills into a second block). -/
theorem md5_two_blocks :
    md5 (List.range 64) =
      [178, 211, 245, 107, 193, 151, 253, 152, 93, 89, 101, 7, 155, 94, 113, 72] := by
  decide

theorem chunksOfAux_nil (size fuel : Nat) : chunksOfAux size fuel [] = [] := by
  cases fuel <;> simp [chunksOfAux]

theorem chunksOfAux_fuel (size : Nat) :
    ∀ fuel₁ fuel₂ l, l.length ≤ fuel₁ → l.length ≤ fuel₂ →
      chunksOfAux size fuel₁ l = chunksOfAux size fuel₂ l := by
  intro fuel₁
  induction fuel₁ with
  | zero =>
      intro fuel₂ l h₁ _
      rw [List.length_eq_zero.mp (Nat.le_zero.mp h₁), chunksOfAux_nil, chunksOfAux_nil]
  | succ f₁ ih =>
      intro fuel₂ l h₁ h₂
      cases fuel₂ with
      | zero =>
          rw [List.length_eq_zero.mp (Nat.le_zero.mp h₂), chunksOfAux_nil, chunksOfAux_nil]
      | succ f₂ =>
          by_cases hc : l = [] ∨ size = 0
          · simp [chunksOfAux, hc]
          · push_neg at hc
            have hlen : l.length ≠ 0 := fun h0 => hc.1 (List.length_eq_zero.mp h0)
            have hdrop : (l.drop size).length ≤ f₁ := by
              simp only [List.length_drop]; omega
            have hdrop₂ : (l.drop size).length ≤ f₂ := by
              simp only [List.length_drop]; omega
            simp only [chunksOfAux, hc.1, hc.2, or_self, if_false]
            rw [ih f₂ (l.drop size) hdrop hdrop₂]

/-- The recursion equation of `chunksOf`, mirroring the slicing loop. -/
theorem chunksOf_eq (size : Nat) (l : List Nat) :
    chunksOf size l =
      if l = [] ∨ size = 0 then []
      else l.take size :: chunksOf size (l.drop size) := by
  match l with
  | [] => simp [chunksOf, chunksOfAux_nil]
  | a :: t =>
      by_cases hs : size = 0
      · simp [chunksOf, chunksOfAux, hs]
      · have hcond : ¬((a :: t) = [] ∨ size = 0) := by simp [hs]
        rw [if_neg hcond]
        show chunksOfAux size (t.length + 1) (a :: t) = _
        rw [chunksOfAux, if_neg hcond]
        congr 1
        exact chunksOfAux_fuel size t.length ((a :: t).drop size).length _
          (by simp only [List.length_drop, List.length_cons]; omega) (le_refl _)

theorem chunksOf_join (p : Nat) (hp : 1 ≤ p) : ∀ l : List Nat, (chunksOf p l).flatten = l := by
  have H : ∀ n l, List.length l ≤ n → (chunksOf p l).flatten = l := by
    intro n
    induction n with
    | zero =>
        intro l h
        rw [List.length_eq_zero.mp (Nat.le_zero.mp h), chunksOf_eq]
        simp
    | succ n ih =>
        intro l h
        by_cases hl : l = []
        · subst hl; rw [chunksOf_eq]; simp
        · rw [chunksOf_eq, if_neg (by simp [hl]; omega)]
          have hlen : l.length ≠ 0 := fun h0 => hl (List.length_eq_zero.mp h0)
          rw [List.flatten_cons, ih (l.drop p) (by simp only [List.length_drop]; omega)]
          exact List.take_append_drop p l
  intro l
  exact H l.length l (le_refl _)

theorem chunksOf_length (p : Nat) (hp : 1 ≤ p) :
    ∀ l : List Nat, (chunksOf p l).length = (l.length + p - 1) / p := by
  have H : ∀ n l, List.length l ≤ n → (chunksOf p l).length = (l.length + p - 1) / p := by
    intro n
    induction n with
    | zero =>
        intro l h
        rw [List.length_eq_zero.mp (Nat.le_zero.mp h), chunksOf_eq]
        simp [Nat.div_eq_of_lt (show p - 1 < p by omega)]
    | succ n ih =>
        intro l h
        by_cases hl : l = []
        · subst hl; rw [chunksOf_eq]; simp [Nat.div_eq_of_lt (show p - 1 < p by omega)]
        · have hlen : l.length ≠ 0 := fun h0 => hl (List.length_eq_zero.mp h0)
          rw [chunksOf_eq, if_neg (by simp [hl]; omega)]
          rw [List.length_cons, ih (l.drop p) (by simp only [List.length_drop]; omega)]
          simp only [List.length_drop]
          by_cases hlp : l.length ≤ p
          · have h1 : l.length - p + p - 1 < p := by omega
            have h2 : l.length + p - 1 = (l.length - 1) + 1 * p := by omega
            rw [Nat.div_eq_of_lt h1, h2, Nat.add_mul_div_right _ _ (by omega : 0 < p),
              Nat.div_eq_of_lt (by omega : l.length - 1 < p)]
          · have h2 : l.length + p - 1 = (l.length - p + p - 1) + 1 * p := by omega
            rw [h2, Nat.add_mul_div_right _ _ (by omega : 0 < p)]
  intro l
  exact H l.length l (le_refl _)

theorem chunksOf_ne_nil (p : Nat) (l : List Nat) (hl : l ≠ []) (hp : 1 ≤ p) :
    chunksOf p l ≠ [] := by
  rw [chunksOf_eq, if_neg (by simp [hl]; omega)]
  exact List.cons_ne_nil _ _

theorem llfeed_inv (n : Int) :
    ∀ (cs : List (List Nat)) (i : Nat) (s : LLReceiverState),
      1 ≤ i → s.remaining = (cs.length : Int) → n = (i : Int) + cs.length →
      (feedAll s (llframes n i cs)).data = s.data ++ cs.flatten ∧
      (feedAll s (llframes n i cs)).remaining = 0 ∧
      (feedAll s (llframes n i cs)).error = s.error ∧
      (feedAll s (llframes n i cs)).new_data = (if cs.isEmpty then s.new_data else true) := by
  intro cs
  induction cs with
  | nil =>
      intro i s hi hrem hn
      simp only [List.length_nil, Nat.cast_zero] at hrem
      simp [llframes, feedAll, hrem]
  | cons c cs' ih =>
      intro i s hi hrem hn
      have hcur : ¬(((i : Nat) : Int) = 0) := by
        simp only [Int.natCast_eq_zero]
        omega
      have hseq : ¬(s.remaining + ((i : Nat) : Int) ≠ (n : Int)) := by
        push_neg
        rw [hrem, hn]
        ring
      have hhash : ¬(md5trunc c ≠ md5trunc c) := fun h => h rfl
      simp only [llframes, feedAll, new_chunk, if_neg hcur, if_neg hseq, llstep,
        if_neg hhash]
      have hrem1 : s.remaining - 1 = (cs'.length : Int) := by
        rw [hrem]
        push_cast [List.length_cons]
        ring
      by_cases hcs : cs' = []
      · subst hcs
        have hz : s.remaining - 1 = 0 := by rw [hrem1]; simp
        simp only [hz, if_pos rfl, llframes, feedAll]
        refine ⟨by simp, by simp [hz], rfl, by simp⟩
      · have hz : ¬(s.remaining - 1 = 0) := by
          rw [hrem1]
          simp only [Int.natCast_eq_zero]
          exact fun h => hcs (List.length_eq_zero.mp h)
        simp only [if_neg hz]
        have := ih (i + 1)
          { s with data := s.data ++ c, remaining := s.remaining - 1 }
          (by omega) (by simpa using hrem1)
          (by rw [hn]; push_cast [List.length_cons]; ring)
        refine ⟨?_, this.2.1, this.2.2.1, ?_⟩
        · rw [this.1]
          simp
        · rw [this.2.2.2]
          simp [hcs, List.isEmpty_iff]

theorem new_chunk_zero_state (s : LLReceiverState) (n : Int) (c : List Nat) :
    (new_chunk s ⟨0, n, md5trunc c, c⟩).1 =
      if n - 1 = 0 then ⟨n - 1, c, true, .NONE⟩ else ⟨n - 1, c, false, .NONE⟩ := by
  have hhash : ¬(md5trunc c ≠ md5trunc c) := fun h => h rfl
  simp only [new_chunk, if_pos rfl, llstep, llreset, if_neg hhash]
  by_cases hz : n - 1 = 0 <;> simp [hz]

theorem roundtrip_core (mtu : Nat) (B : List Nat) (hmtu : 23 ≤ mtu) (hB : B ≠ []) :
    roundTripOk mtu B := by
  have hp : 1 ≤ mtu - 22 := by omega
  obtain ⟨c0, cs, hcs⟩ : ∃ c0 cs, chunksOf (mtu - 22) B = c0 :: cs := by
    cases h : chunksOf (mtu - 22) B with
    | nil => exact absurd h (chunksOf_ne_nil (mtu - 22) B hB hp)
    | cons a t => exact ⟨a, t, rfl⟩
  have hov : ((B.length + (mtu - 22) - 1) / (mtu - 22) : Nat) = cs.length + 1 := by
    rw [← List.length_cons c0 cs, ← hcs]
    exact (chunksOf_length (mtu - 22) hp B).symm
  have hjoin : c0 ++ cs.flatten = B := by
    have := chunksOf_join (mtu - 22) hp B
    rw [hcs] at this
    simpa using this
  simp only [roundTripOk, llSend, hcs, hov, llframes, Nat.cast_zero, feedAll,
    Nat.zero_add]
  rw [new_chunk_zero_state]
  by_cases hcs0 : cs = []
  · subst hcs0
    have hz : ((0 + 1 : Nat) : Int) - 1 = 0 := by norm_num
    simp only [List.length_nil, hz, if_pos rfl, llframes, feedAll]
    refine ⟨by simpa using hjoin, by norm_num [hz], rfl, rfl⟩
  · have hrem1 : ((cs.length + 1 : Nat) : Int) - 1 = (cs.length : Int) := by
      push_cast
      ring
    have hz : ¬(((cs.length + 1 : Nat) : Int) - 1 = 0) := by
      rw [hrem1]
      simp only [Int.natCast_eq_zero]
      exact fun h => hcs0 (List.length_eq_zero.mp h)
    rw [if_neg hz]
    have hinv := llfeed_inv ((cs.length + 1 : Nat) : Int) cs 1
      ⟨((cs.length + 1 : Nat) : Int) - 1, c0, false, .NONE⟩
      (le_refl 1) hrem1 (by push_cast; ring)
    refine ⟨?_, hinv.2.1, ?_, hinv.2.2.1⟩
    · rw [hinv.1]
      simpa using hjoin
    · rw [hinv.2.2.2]
      simp [hcs0]

theorem ll_get_iter_drain : ∀ (pend : List TransferData) (m : Nat),
    ll_get_iter pend.length ⟨m, pend⟩ = ⟨m, []⟩ := by
  intro pend
  induction pend with
  | nil => intro m; rfl
  | cons c rest ih => intro m; exact ih m

theorem ll_get_iter_empty (m : Nat) : ∀ k, ll_get_iter k ⟨m, []⟩ = ⟨m, []⟩ := by
  intro k
  induction k with
  | zero => rfl
  | succ k ih => exact ih

theorem uploadChunksAux_fuel (C : Nat) (hC : 1 ≤ C) :
    ∀ f₁ f₂ l, l.length < f₁ → l.length < f₂ →
      uploadChunksAux C f₁ l = uploadChunksAux C f₂ l := by
  intro f₁
  induction f₁ with
  | zero => intro f₂ l h₁ _; omega
  | succ f₁ ih =>
      intro f₂ l h₁ h₂
      cases f₂ with
      | zero => omega
      | succ f₂ =>
          simp only [uploadChunksAux]
          by_cases hcl : C ≤ l.length
          · rw [if_pos hcl, if_pos hcl,
              ih f₂ (l.drop C) (by simp only [List.length_drop]; omega)
                (by simp only [List.length_drop]; omega)]
          · rw [if_neg hcl, if_neg hcl]

/-- The recursion equation of `uploadChunks`, mirroring the read loop. -/
theorem uploadChunks_eq (C : Nat) (hC : 1 ≤ C) (l : List Nat) :
    uploadChunks C l =
      l.take C :: (if C ≤ l.length then uploadChunks C (l.drop C) else []) := by
  have hC0 : ¬(C = 0) := by omega
  simp only [uploadChunks, if_neg hC0]
  show uploadChunksAux C (l.length + 1) l = _
  rcases hl : l.length with _ | n
  · have : l = [] := List.length_eq_zero.mp hl
    subst this
    simp [uploadChunksAux, hC0]
  · rw [uploadChunksAux]
    by_cases hcl : C ≤ l.length
    · rw [if_pos hcl, if_pos (show C ≤ n + 1 by omega)]
      congr 1
      exact uploadChunksAux_fuel C hC (n + 1) ((l.drop C).length + 1) (l.drop C)
        (by simp only [List.length_drop]; omega) (by omega)
    · rw [if_neg hcl, if_neg (show ¬ C ≤ n + 1 by omega)]

theorem uploadChunks_flatten (C : Nat) (hC : 1 ≤ C) :
    ∀ l : List Nat, (uploadChunks C l).flatten = l := by
  have H : ∀ n l, List.length l ≤ n → (uploadChunks C l).flatten = l := by
    intro n
    induction n with
    | zero =>
        intro l h
        rw [List.length_eq_zero.mp (Nat.le_zero.mp h), uploadChunks_eq C hC,
          if_neg (by simp only [List.length_nil]; omega : ¬(C ≤ ([] : List Nat).length))]
        simp
    | succ n ih =>
        intro l h
        rw [uploadChunks_eq C hC, List.flatten_cons]
        by_cases hcl : C ≤ l.length
        · rw [if_pos hcl, ih (l.drop C) (by simp only [List.length_drop]; omega)]
          exact List.take_append_drop C l
        · rw [if_neg hcl]
          simp [List.take_of_length_le (by omega : l.length ≤ C)]
  intro l
  exact H l.length l (le_refl _)

theorem uploadChunks_length (C : Nat) (hC : 1 ≤ C) :
    ∀ l : List Nat, (uploadChunks C l).length =
      if l.length % C = 0 then l.length / C + 1 else ceilDiv l.length C := by
  have H : ∀ n l, List.length l ≤ n → (uploadChunks C l).length =
      if l.length % C = 0 then l.length / C + 1 else ceilDiv l.length C := by
    intro n
    induction n with
    | zero =>
        intro l h
        rw [List.length_eq_zero.mp (Nat.le_zero.mp h), uploadChunks_eq C hC,
          if_neg (by simp only [List.length_nil]; omega : ¬(C ≤ ([] : List Nat).length))]
        simp
    | succ n ih =>
        intro l h
        rw [uploadChunks_eq C hC, List.length_cons]
        by_cases hcl : C ≤ l.length
        · rw [if_pos hcl, ih (l.drop C) (by simp only [List.length_drop]; omega)]
          simp only [List.length_drop]
          have hmod : l.length % C = (l.length - C) % C := by
            rw [Nat.mod_eq_sub_mod hcl]
          by_cases hz : l.length % C = 0
          · rw [if_pos (by omega : (l.length - C) % C = 0), if_pos hz]
            have hdiv : l.length / C = (l.length - C) / C + 1 :=
              Nat.div_eq_sub_div (by omega) hcl
            omega
          · rw [if_neg (by omega : ¬((l.length - C) % C = 0)), if_neg hz]
            unfold ceilDiv
            have h2 : l.length + C - 1 = (l.length - C + C - 1) + 1 * C := by omega
            rw [h2, Nat.add_mul_div_right _ _ (by omega : 0 < C)]
        · rw [if_neg hcl]
          simp only [List.length_nil]
          by_cases hz : l.length = 0
          · rw [hz]
            simp
          · have hm : l.length % C = l.length := Nat.mod_eq_of_lt (by omega)
            rw [if_neg (by omega : ¬(l.length % C = 0))]
            unfold ceilDiv
            have h2 : l.length + C - 1 = (l.length - 1) + 1 * C := by omega
            rw [h2, Nat.add_mul_div_right _ _ (by omega : 0 < C),
              Nat.div_eq_of_lt (by omega : l.length - 1 < C)]
  intro l
  exact H l.length l (le_refl _)

theorem pairsFrom_length : ∀ (i : Nat) (ds : List (List Nat)),
    (pairsFrom i ds).length = ds.length := by
  intro i ds
  induction ds generalizing i with
  | nil => rfl
  | cons c cs ih => simp [pairsFrom, ih]

theorem diskLookup_pairsFrom_none :
    ∀ (ds : List (List Nat)) (i k : Nat), i + ds.length ≤ k →
      diskLookup (pairsFrom i ds) k = none := by
  intro ds
  induction ds with
  | nil => intro i k _; rfl
  | cons c cs ih =>
      intro i k h
      simp only [pairsFrom, diskLookup, List.length_cons] at h ⊢
      rw [if_neg (by omega : ¬(k = i))]
      exact ih (i + 1) k (by omega)

theorem pairsFrom_snoc : ∀ (ds : List (List Nat)) (i : Nat) (c : List Nat),
    pairsFrom i (ds ++ [c]) = pairsFrom i ds ++ [(i + ds.length, c)] := by
  intro ds
  induction ds with
  | nil => intro i c; simp [pairsFrom]
  | cons d ds ih =>
      intro i c
      simp only [List.cons_append, pairsFrom, List.length_cons, List.append_eq]
      rw [ih (i + 1) c]
      have harith : i + 1 + ds.length = i + (ds.length + 1) := by omega
      rw [harith]

theorem diskWrite_pairsFrom (ds : List (List Nat)) (c : List Nat) :
    diskWrite (pairsFrom 0 ds) ds.length c = pairsFrom 0 (ds ++ [c]) := by
  have h := diskLookup_pairsFrom_none ds 0 ds.length (by omega)
  simp only [diskWrite, h, pairsFrom_snoc, Nat.zero_add]

theorem sumLens_uniform : ∀ (cs : List (List Nat)) (w : Nat),
    (∀ c ∈ cs, c.length = w) → sumLens cs = w * cs.length := by
  intro cs
  induction cs with
  | nil => intro w _; simp [sumLens]
  | cons c cs ih =>
      intro w h
      have hc : c.length = w := h c (List.mem_cons_self c cs)
      have hrest := ih w (fun x hx => h x (List.mem_cons_of_mem c hx))
      simp only [sumLens, List.foldr_cons] at hrest ⊢
      rw [hc, hrest, List.length_cons]
      ring

theorem dl_feed_run (n : Int) :
    ∀ (cs ds : List (List Nat)) (s : DLState),
      s.response.chunks = n →
      s.response.next_chunk = (ds.length : Int) →
      s.disk = pairsFrom 0 ds →
      ((ds.length + cs.length : Nat) : Int) < n →
      ∃ s', dl_feed s cs = some s' ∧
        s'.request = s.request ∧
        s'.response.filename = s.response.filename ∧
        s'.response.chunks = n ∧
        s'.response.status = s.response.status ∧
        s'.response.next_chunk = ((ds.length + cs.length : Nat) : Int) ∧
        s'.response.size = s.response.size + ((sumLens cs : Nat) : Int) ∧
        s'.disk = pairsFrom 0 (ds ++ cs) ∧
        s'.marker = s.marker := by
  intro cs
  induction cs with
  | nil =>
      intro ds s h1 h2 h3 _
      refine ⟨s, rfl, rfl, rfl, h1, rfl, ?_, ?_, ?_, rfl⟩
      · rw [h2]; norm_num
      · simp [sumLens]
      · rw [h3]; simp
  | cons c cs ih =>
      intro ds s h1 h2 h3 h4
      have hnofin : ¬(s.response.next_chunk + 1 = s.response.chunks) := by
        rw [h1, h2]
        intro heq
        rw [List.length_cons] at h4
        push_cast at h4 heq
        omega
      have htoNat : s.response.next_chunk.toNat = ds.length := by
        rw [h2]
        exact Int.toNat_natCast _
      have hstep : dl_add_chunk s c = some
          { s with
            response := { s.response with
                          hash := md5 c,
                          next_chunk := s.response.next_chunk + 1,
                          size := s.response.size + ((c.length : Nat) : Int) },
            disk := diskWrite s.disk s.response.next_chunk.toNat c } := by
        simp only [dl_add_chunk]
        rw [if_neg hnofin]
      obtain ⟨s', hfeed, hreq, hfn, hch, hst, hnext, hsize, hdisk, hmark⟩ :=
        ih (ds ++ [c])
          { s with
            response := { s.response with
                          hash := md5 c,
                          next_chunk := s.response.next_chunk + 1,
                          size := s.response.size + ((c.length : Nat) : Int) },
            disk := diskWrite s.disk s.response.next_chunk.toNat c }
          h1
          (by simp only [List.length_append, List.length_cons, List.length_nil]
              rw [h2]; push_cast; ring)
          (by rw [h3, htoNat]; exact diskWrite_pairsFrom ds c)
          (by simp only [List.length_append, List.length_cons,
                List.length_nil] at h4 ⊢
              push_cast at h4 ⊢; omega)
      refine ⟨s', ?_, hreq, hfn, hch, hst, ?_, ?_, ?_, hmark⟩
      · simp only [dl_feed, hstep]
        exact hfeed
      · rw [hnext]
        push_cast [List.length_append, List.length_cons, List.length_nil]
        omega
      · rw [hsize]
        simp only [sumLens, List.foldr_cons]
        push_cast
        ring
      · rw [hdisk, List.append_assoc]
        rfl

theorem initDL_eq (req : DLRequest) :
    initDL req =
      { request := req,
        response := { filename := req.filename, chunks := req.chunks,
                      next_chunk := 0, hash := [], size := 0, status := .TRANSFER },
        disk := [], marker := true, finalFile := none, events := [] } := by
  unfold initDL dl_set_request
  rw [if_pos (Or.inr (by decide))]
  rfl

/-- C1 (amended): for every NONEMPTY buffer `B` and every MTU at least
`header_size + 1` (= 23), sending `B` and feeding every produced frame, in
production order, into a fresh receiver yields `B` bit-identically, with
zero remaining chunks, the new-data flag set and no error.  (The original
claim, quantified over every buffer, fails for the empty buffer: it produces
no frames at all, so the new-data flag is never set.) -/
theorem claim_C1_roundtrip (mtu : Nat) (B : List Nat) (hmtu : 23 ≤ mtu)
    (hB : B ≠ []) : roundTripOk mtu B :=
  roundtrip_core mtu B hmtu hB

theorem claim_C1_witness : roundTripOk 23 [5] :=
  claim_C1_roundtrip 23 [5] (by decide) (by decide)

/-- C1 counterexample to the claim as stated: for the empty buffer and
MTU 23 (≥ header_size + 1) the round trip does NOT complete — the splitter
emits zero frames, so the receiver's new-data flag stays false. -/
theorem claim_C1_counterexample : ¬ roundTripOk 23 [] := by
  decide

/-- C2 (amended): when the next super-chunk index reaches the declared
total, finalization runs: artifacts `0..total-1` are read and concatenated
in index order, the whole-buffer MD5 is compared to the request's hash; on
equality status becomes `FINISHED` and the completion callback is invoked
with the written file's path and the request's target; on inequality status
becomes `ERROR` and the callback is invoked with a null path; in BOTH
outcomes the resume marker is deleted — and in NEITHER outcome are the
super-chunk artifacts deleted during finalization (cleanup only happens
later, on a new request or a marker-less startup).  (The original claim
said the artifacts are deleted in the success outcome; the counterexample
shows a successful finalization that leaves them on disk.) -/
theorem claim_C2_finalization (s : DLState) (chunk content : List Nat)
    (hnext : s.response.next_chunk + 1 = s.response.chunks)
    (hmarker : s.marker = true)
    (hread : readConcat (diskWrite s.disk s.response.next_chunk.toNat chunk)
      s.response.chunks.toNat = some content) :
    finalizeOutcome s chunk content := by
  unfold finalizeOutcome dl_add_chunk dl_transfer_finished
  simp only [hnext, if_pos rfl, hread, hmarker]
  by_cases hmd : md5 content = s.request.hash
  · simp [hmd, hmarker]
  · simp [hmd, hmarker]

theorem claim_C2_witness : finalizeOutcome exC2state [] [] :=
  claim_C2_finalization exC2state [] [] (by decide) rfl (by decide)

set_option maxRecDepth 2000 in
/-- C2 counterexample: receiving the final super-chunk of `exC2state` ends
in the SUCCESS outcome (status `FINISHED`, marker deleted, callback fired
with the path "f" and target), yet the super-chunk artifact `chunk0.bin` is
still on disk — finalization deletes no artifacts, contradicting the
claim's "artifact files are deleted in the success outcome". -/
theorem claim_C2_counterexample :
    dl_add_chunk exC2state [] = some exC2final ∧
    exC2final.response.status = .FINISHED ∧
    exC2final.marker = false ∧
    exC2final.disk = [(0, [])] ∧
    exC2final.events = [(some "f", Target.APP)] := by
  decide

/-- C3 (amended): a download that has received `k` of `n` super-chunks and
is reconstructed from disk restores `next_chunk = k` and
`size = (size of artifact 0) × k`, and the resumed response agrees with the
pre-restart response on filename, declared total, status, next-chunk index,
and — when all received artifacts share artifact 0's size — transferred
bytes.  (The original claim — a response identical modulo elapsed time — is
false: the resumed response's last-chunk-hash field is empty rather than
the MD5 of the last received super-chunk; see the counterexample.) -/
theorem claim_C3_resume (req : DLRequest) (cs : List (List Nat))
    (hlt : ((cs.length : Nat) : Int) < req.chunks)
    (huni : ∀ c ∈ cs, c.length = (cs.headD []).length) :
    resumeMatch req cs := by
  obtain ⟨s', hfeed, hreq, hfn, hch, hst, hnext, hsize, hdisk, hmark⟩ :=
    dl_feed_run req.chunks cs [] (initDL req)
      (by rw [initDL_eq]) (by rw [initDL_eq]; rfl) (by rw [initDL_eq]; rfl)
      (by simpa using hlt)
  rw [initDL_eq] at hfn hst hsize
  have hdisk' : s'.disk = pairsFrom 0 cs := by
    rw [hdisk]
    rfl
  cases cs with
  | nil =>
      refine ⟨s', { filename := req.filename, chunks := req.chunks,
                    next_chunk := 0, hash := [], size := 0,
                    status := .TRANSFER },
        hfeed, ?_, ?_, ?_, ?_, ?_, ?_, ?_, ?_⟩
      · rw [hdisk']
        rfl
      · norm_num
      · norm_num
      · rw [hfn]
      · rw [hch]
      · rw [hst]
      · rw [hnext]; norm_num
      · rw [hsize]; simp [sumLens]
  | cons c cs' =>
      have hk : (pairsFrom 0 (c :: cs')).length = cs'.length + 1 := by
        rw [pairsFrom_length]
        rfl
      have hkz : ¬((pairsFrom 0 (c :: cs')).length = 0) := by omega
      have hlook : diskLookup (pairsFrom 0 (c :: cs')) 0 = some c := by
        simp [pairsFrom, diskLookup]
      refine ⟨s', { filename := req.filename, chunks := req.chunks,
                    next_chunk := ((pairsFrom 0 (c :: cs')).length : Int),
                    hash := [],
                    size := ((c.length * (pairsFrom 0 (c :: cs')).length : Nat) : Int),
                    status := .TRANSFER },
        hfeed, ?_, ?_, ?_, ?_, ?_, ?_, ?_, ?_⟩
      · rw [hdisk']
        simp only [dl_resume, if_neg hkz, hlook]
      · simp only [hk, List.length_cons]
      · simp only [hk, List.headD_cons, List.length_cons]
      · rw [hfn]
      · rw [hch]
      · rw [hst]
      · rw [hnext, hk]
        norm_num
      · rw [hsize, hk]
        have hsum : sumLens (c :: cs') = c.length * (cs'.length + 1) := by
          apply sumLens_uniform
          simpa using huni
        rw [hsum]
        push_cast
        ring

theorem claim_C3_witness :
    resumeMatch { filename := "w", chunks := 2, hash := [1], target := .APP } [[9]] :=
  claim_C3_resume { filename := "w", chunks := 2, hash := [1], target := .APP }
    [[9]] (by decide) (by decide)

set_option maxRecDepth 2000 in
/-- C3 counterexample: after receiving 1 of 2 super-chunks the pre-restart
response carries `hash = md5([0])`, but the response rebuilt from disk
carries an empty `hash` — the two responses differ in a field that is not
elapsed time, so the resumed response is NOT identical to the pre-restart
response modulo elapsed time. -/
theorem claim_C3_counterexample :
    dl_feed (initDL exC3req) [[0]] = some exC3pre ∧
    dl_resume exC3req exC3pre.disk = some exC3resumed ∧
    exC3pre.response.hash ≠ [] ∧
    exC3resumed.hash = [] ∧
    exC3resumed ≠ exC3pre.response := by
  decide

/-- C4 (amended): accepting an upload request (empty hash) for a file with
content `l` under super-chunk size `C` declares `ceil(|l| / C)` chunks and
opens the read sequence `uploadChunks C l`, whose concatenation equals `l`;
but the sequence's length is `ceil(|l| / C)` only when `C` does not divide
`|l|` — when `C` divides `|l|` (the empty file included) it is
`|l| / C + 1`, with a final EMPTY super-chunk (the read loop only stops
after a read shorter than `C`).  (The original claim — exactly
`ceil(S/C)` super-chunks for every file size `S` — is false for multiples
of `C`; see the counterexample.) -/
theorem claim_C4_upload_split (s : ULState) (req : DLRequest) (content : List Nat)
    (hC : 1 ≤ s.chunkSize) (hh : req.hash = [])
    (hf : s.files req.filename = some content) :
    (ul_set_request s req).gen = uploadChunks s.chunkSize content ∧
    (ul_set_request s req).response.chunks =
      ((ceilDiv content.length s.chunkSize : Nat) : Int) ∧
    (ul_set_request s req).gen.flatten = content ∧
    (ul_set_request s req).gen.length =
      (if content.length % s.chunkSize = 0 then content.length / s.chunkSize + 1
       else ceilDiv content.length s.chunkSize) := by
  have hstate : ul_set_request s req = ul_reset s req := by
    simp [ul_set_request, hh]
  have hgen : (ul_reset s req).gen = uploadChunks s.chunkSize content := by
    simp [ul_reset, hf]
  have hchunks : (ul_reset s req).response.chunks =
      ((ceilDiv content.length s.chunkSize : Nat) : Int) := by
    simp [ul_reset, hf]
  rw [hstate, hgen]
  exact ⟨rfl, hchunks, uploadChunks_flatten s.chunkSize hC content,
    uploadChunks_length s.chunkSize hC content⟩

theorem claim_C4_witness :
    (ul_set_request exC4state exC4req).gen = uploadChunks 1 [7] ∧
    (ul_set_request exC4state exC4req).response.chunks = ((ceilDiv 1 1 : Nat) : Int) ∧
    (ul_set_request exC4state exC4req).gen.flatten = [7] ∧
    (ul_set_request exC4state exC4req).gen.length =
      (if (1 : Nat) % 1 = 0 then 1 / 1 + 1 else ceilDiv 1 1) :=
  claim_C4_upload_split exC4state exC4req [7] (by decide) rfl rfl

/-- C4 counterexample: the 1-byte file "f" with super-chunk size 1 (a size
that divides the file size) declares `ceil(1/1) = 1` chunk, but driving the
session (accept, pull, acknowledge, pull) hands TWO super-chunks to the
sender — `[7]` and then an empty one — and the status never reaches
`FINISHED`; so the upload does not produce exactly `ceil(S/C)`
super-chunks. -/
theorem claim_C4_counterexample :
    ceilDiv 1 1 = 1 ∧
    (ul_set_request exC4state exC4req).response.chunks = 1 ∧
    (ul_get_response (ul_set_request
        (ul_get_response (ul_set_request exC4state exC4req)).1
        exC4ack)).1.sent = [[7], []] ∧
    (ul_get_response (ul_set_request
        (ul_get_response (ul_set_request exC4state exC4req)).1
        exC4ack)).1.response.status = .TRANSFER := by
  decide

/-- C5 (amended): a frame with sequence index 0 restarts the reception
unconditionally — the call is processed from the freshly reset state
(buffer emptied, remaining counter set to the declared total, error
cleared), regardless of prior state; a frame with positive index whose
remaining + index ≠ total is answered with -1 and `WRONG_SEQUENCE`; and in
the remaining case the frame is accepted (data appended, counter
decremented) if and only if ALSO its truncated hash matches its data.
(The original claim said "accepted exactly when the counter equality
holds", ignoring the hash check that can still reject such a frame.) -/
theorem claim_C5_sequence (s : LLReceiverState) (c : TransferData) :
    (c.current_chunk = 0 → new_chunk s c = llstep (llreset c.overall_chunks) c) ∧
    (0 < c.current_chunk → s.remaining + c.current_chunk ≠ c.overall_chunks →
      new_chunk s c = ({ s with error := .WRONG_SEQUENCE }, -1)) ∧
    (0 < c.current_chunk → s.remaining + c.current_chunk = c.overall_chunks →
      (llAccepted s c ↔ md5trunc c.data = c.hash)) := by
  refine ⟨fun h0 => ?_, fun hpos hne => ?_, fun hpos heq => ?_⟩
  · simp [new_chunk, h0]
  · have hne0 : ¬(c.current_chunk = 0) := by omega
    simp only [new_chunk, if_neg hne0, if_pos hne]
  · have hne0 : ¬(c.current_chunk = 0) := by omega
    have hnn : ¬(s.remaining + c.current_chunk ≠ c.overall_chunks) := fun h => h heq
    have hstep : new_chunk s c = llstep s c := by
      simp only [new_chunk, if_neg hne0, if_neg hnn]
    by_cases hh : md5trunc c.data = c.hash
    · have hnot : ¬(md5trunc c.data ≠ c.hash) := fun h => h hh
      refine ⟨fun _ => hh, fun _ => ?_⟩
      unfold llAccepted
      rw [hstep]
      simp only [llstep, if_neg hnot]
      by_cases hz : s.remaining - 1 = 0 <;> simp [hz]
    · refine ⟨fun hacc => ?_, fun h => absurd h hh⟩
      exfalso
      have h2 := hacc.2
      rw [hstep] at h2
      simp only [llstep, if_pos hh] at h2
      omega

theorem claim_C5_witness :
    new_chunk initLLReceiver ⟨2, 5, [], []⟩ =
      ({ initLLReceiver with error := .WRONG_SEQUENCE }, -1) :=
  (claim_C5_sequence initLLReceiver ⟨2, 5, [], []⟩).2.1 (by decide) (by decide)

/-- C5 counterexample to the claim as stated: for the frame
`⟨1, 1, [], []⟩` presented to a fresh receiver, the sequence equality
`remaining + index = total` (0 + 1 = 1) holds, yet the frame is NOT
accepted — its truncated hash field is wrong, so the hash check rejects
it. -/
theorem claim_C5_counterexample :
    initLLReceiver.remaining + (1 : Int) = (1 : Int) ∧
    ¬ llAccepted initLLReceiver ⟨1, 1, [], []⟩ := by
  decide

/-- C6 (amended): a frame whose truncated MD5 over its data field differs
from its stored `hash` field — which is the case for all but a ≈ 2⁻¹⁶
fraction of single-byte corruptions — is answered with -1 and error
`WRONG_HASH`, and no data is flagged as delivered.  (The original claim,
over EVERY single-byte corruption, is false: the hash is only a 2-byte MD5
prefix, so colliding corruptions exist and are accepted; see the
counterexample.) -/
theorem claim_C6_wrong_hash (s : LLReceiverState) (c : TransferData)
    (hnd : s.new_data = false) (hh : md5trunc c.data ≠ c.hash)
    (hseq : c.current_chunk = 0 ∨ s.remaining + c.current_chunk = c.overall_chunks) :
    (new_chunk s c).2 = -1 ∧ (new_chunk s c).1.error = .WRONG_HASH ∧
    (new_chunk s c).1.new_data = false := by
  by_cases h0 : c.current_chunk = 0
  · simp [new_chunk, h0, llstep, if_pos hh, llreset]
  · have heq : s.remaining + c.current_chunk = c.overall_chunks := by
      rcases hseq with h | h
      · exact absurd h h0
      · exact h
    have hnn : ¬(s.remaining + c.current_chunk ≠ c.overall_chunks) := fun h => h heq
    simp [new_chunk, h0, if_neg hnn, llstep, if_pos hh, hnd]

theorem claim_C6_witness :
    (new_chunk initLLReceiver ⟨0, 1, [], [0]⟩).2 = -1 ∧
    (new_chunk initLLReceiver ⟨0, 1, [], [0]⟩).1.error = .WRONG_HASH ∧
    (new_chunk initLLReceiver ⟨0, 1, [], [0]⟩).1.new_data = false :=
  claim_C6_wrong_hash initLLReceiver ⟨0, 1, [], [0]⟩ rfl (by decide) (Or.inl rfl)

/-- C6 counterexample: the sender splits the buffer `[1,0,0,0,0]` (MTU 50)
into the single frame with truncated hash `[0xc0, 0x68]`.  Corrupting the
data byte at index 2 from 0 to 155 while keeping the hash field unchanged
yields a frame whose truncated MD5 COLLIDES with the original, so the
receiver accepts it: `new_chunk` returns 0 with no error, the new-data flag
set, and the corrupted buffer delivered — not `-1` with `WRONG_HASH` as the
claim demands. -/
theorem claim_C6_counterexample :
    (llSend 50 [1, 0, 0, 0, 0]).pending =
      [⟨0, 1, [192, 104], [1, 0, 0, 0, 0]⟩] ∧
    List.set [1, 0, 0, 0, 0] 2 155 = [1, 0, 155, 0, 0] ∧
    new_chunk initLLReceiver ⟨0, 1, [192, 104], [1, 0, 155, 0, 0]⟩ =
      (⟨0, [1, 0, 155, 0, 0], true, .NONE⟩, 0) := by
  decide

/-- C7 (confirmed): `get_response` returns the current response snapshot,
except that when the declared chunk total is zero, or the next-chunk index
strictly exceeds the declared total, the returned response's status is
forced to `ERROR`. -/
theorem claim_C7_get_response (r : TResponse) :
    dl_get_response r =
      if r.chunks = 0 ∨ r.next_chunk > r.chunks then { r with status := .ERROR }
      else r := by
  unfold dl_get_response
  by_cases h1 : r.chunks = 0
  · simp [h1]
  · by_cases h2 : r.next_chunk > r.chunks <;> simp [h1, h2]

/-- C8 (confirmed): an upload request with an empty hash naming a file
absent from the upload root sets status `FILE_NOT_FOUND`, leaves the
declared chunk total at zero, produces no chunk sequence (the generator and
the sent list are untouched), and every subsequent `get_response` call
leaves the session state unchanged — no data is ever pulled. -/
theorem claim_C8_file_not_found (s : ULState) (req : DLRequest)
    (hh : req.hash = []) (hf : s.files req.filename = none) :
    (ul_set_request s req).response.status = .FILE_NOT_FOUND ∧
    (ul_set_request s req).response.chunks = 0 ∧
    (ul_set_request s req).gen = s.gen ∧
    (ul_set_request s req).sent = s.sent ∧
    ∀ n, ul_get_iter n (ul_set_request s req) = ul_set_request s req := by
  have hstate : ul_set_request s req =
      { s with response := { filename := req.filename, status := .FILE_NOT_FOUND } } := by
    simp [ul_set_request, hh, ul_reset, hf]
  rw [hstate]
  refine ⟨rfl, rfl, rfl, rfl, ?_⟩
  intro n
  induction n with
  | zero => rfl
  | succ n ih =>
      show ul_get_iter n (ul_get_response _).1 = _
      exact ih

theorem claim_C8_witness :
    (ul_set_request exC8state exC8req).response.status = .FILE_NOT_FOUND ∧
    (ul_set_request exC8state exC8req).response.chunks = 0 ∧
    (ul_set_request exC8state exC8req).gen = exC8state.gen ∧
    (ul_set_request exC8state exC8req).sent = exC8state.sent ∧
    ∀ n, ul_get_iter n (ul_set_request exC8state exC8req) =
      ul_set_request exC8state exC8req :=
  claim_C8_file_not_found exC8state exC8req rfl rfl

/-- C9 (confirmed): for every payload (including the empty one) and every
valid MTU, once all frames of the payload have been pulled, every
subsequent `get_chunk` call returns the reserved empty-marker frame
`TransferData()` and leaves the sender state unchanged, so this persists
until `send` is called again. -/
theorem claim_C9_end_of_stream (mtu : Nat) (data : List Nat) (_hmtu : 23 ≤ mtu) :
    eosPersists mtu data := by
  intro k
  have h1 : ll_get_iter (llSend mtu data).pending.length (llSend mtu data) =
      ⟨mtu, []⟩ :=
    ll_get_iter_drain (llSend mtu data).pending mtu
  rw [h1, ll_get_iter_empty]
  rfl

theorem claim_C9_witness : eosPersists 50 [1, 2, 3] :=
  claim_C9_end_of_stream 50 [1, 2, 3] (by decide)

/-- C10 (amended): every frame with positive sequence index that fails the
sequence check or the hash check is answered with -1 and leaves the
assembled buffer, the remaining-chunk counter and the new-data flag exactly
as they were.  (The original claim identified "rejected" with "returning
-1"; that is falsified by the counterexample below, where a frame is
ACCEPTED — data appended, counter decremented — and the call still returns
-1 because the counter was driven below zero.) -/
theorem claim_C10_reject_preserves (s : LLReceiverState) (c : TransferData)
    (hpos : 0 < c.current_chunk)
    (hrej : s.remaining + c.current_chunk ≠ c.overall_chunks ∨
      md5trunc c.data ≠ c.hash) :
    (new_chunk s c).2 = -1 ∧ (new_chunk s c).1.data = s.data ∧
    (new_chunk s c).1.remaining = s.remaining ∧
    (new_chunk s c).1.new_data = s.new_data := by
  have hne0 : ¬(c.current_chunk = 0) := by omega
  by_cases hs : s.remaining + c.current_chunk ≠ c.overall_chunks
  · simp [new_chunk, hne0, if_pos hs]
  · have hh : md5trunc c.data ≠ c.hash := by
      rcases hrej with h | h
      · exact absurd h hs
      · exact h
    simp [new_chunk, hne0, if_neg hs, llstep, if_pos hh]

theorem claim_C10_witness :
    (new_chunk initLLReceiver ⟨3, 7, [], []⟩).2 = -1 ∧
    (new_chunk initLLReceiver ⟨3, 7, [], []⟩).1.data = initLLReceiver.data ∧
    (new_chunk initLLReceiver ⟨3, 7, [], []⟩).1.remaining = initLLReceiver.remaining ∧
    (new_chunk initLLReceiver ⟨3, 7, [], []⟩).1.new_data = initLLReceiver.new_data :=
  claim_C10_reject_preserves initLLReceiver ⟨3, 7, [], []⟩ (by decide)
    (Or.inl (by decide))

set_option maxRecDepth 4096 in
/-- C10 counterexample: on a fresh receiver (remaining counter 0), the frame
`⟨5, 5, md5trunc [1], [1]⟩` passes both the sequence check (0 + 5 = 5) and
the hash check, so it is ACCEPTED: its data is appended and the counter is
decremented to -1 — and the call returns -1.  So a call that "rejects
(returning -1)" does NOT always leave the buffer and counter unchanged. -/
theorem claim_C10_counterexample :
    (new_chunk initLLReceiver ⟨5, 5, [85, 165], [1]⟩).2 = -1 ∧
    (new_chunk initLLReceiver ⟨5, 5, [85, 165], [1]⟩).1.data ≠ initLLReceiver.data ∧
    (new_chunk initLLReceiver ⟨5, 5, [85, 165], [1]⟩).1.remaining ≠
      initLLReceiver.remaining ∧
    md5trunc [1] = [85, 165] := by
  decide
